import Mathlib

/-!
Verification of the SBT (Smart Bot Technology) n-gram text-continuation core.

The repository source under verification is the console front-end
`src/sbt_main.py`.  The n-gram library it calls (`TEXT_PREDICTION`), and the
rating manager (`RATING_MANAGER`), are imported by the console but their code
is not part of the repository snapshot; where a claim is decided by that
missing code, the corresponding definition below is modelled from the spec
(its doc comment says so and names the missing piece).  Definitions embedded
from `sbt_main.py` cite the relevant lines.
-/

namespace SBT

/-- Modelled from the spec (§3 Data model): a Token is an opaque normalized
string unit with exact string equality. -/
abbrev Token := String

/-- Modelled from the spec (§3 Data model): the continuation table of one
context, an insertion-ordered list of (token, occurrence count) pairs.
Insertion order is kept because the spec's sampling step 4 tie-breaks by
first-observed insertion order. -/
abbrev Freqs := List (Token × ℕ)

/-- Modelled from the spec (§3 Data model): an NGramModel table mapping a
Context (tuple of n-1 tokens) to its continuation counts, insertion-ordered. -/
abbrev NGramTable := List (List Token × Freqs)

/-- Modelled from the spec (§7 Error handling design): the typed failures of
the core (`InsufficientDataError`, `UnknownContextError`,
`InvalidParameterError`, `UnderspecifiedContextError`, `InvalidFeedbackError`). -/
inductive SBTError where
  | insufficientData
  | unknownContext
  | invalidParameter
  | underspecifiedContext
  | invalidFeedback
deriving DecidableEq

/-- Modelled from the spec (§4.1 ModelBuilder, missing source module
`TEXT_PREDICTION.text_prediction`): increment the count of `tok` in an
insertion-ordered continuation table, appending it with count 1 if absent. -/
def bumpCont : Freqs → Token → Freqs
  | [], tok => [(tok, 1)]
  | (t, c) :: rest, tok =>
      if t = tok then (t, c + 1) :: rest else (t, c) :: bumpCont rest tok

/-- Modelled from the spec (§4.1 ModelBuilder): increment the (Context, Token)
count of one window in the table, inserting the context if absent. -/
def bumpWindow : NGramTable → List Token → Token → NGramTable
  | [], ctx, tok => [(ctx, [(tok, 1)])]
  | (k, fs) :: rest, ctx, tok =>
      if k = ctx then (k, bumpCont fs tok) :: rest
      else (k, fs) :: bumpWindow rest ctx tok

/-- Modelled from the spec (§4.1 ModelBuilder): slide a window of width `n`
across the tokens with stride 1; for each window the first `n-1` tokens form
the context and the token at position `n-1` is the continuation. -/
def buildAux (n : ℕ) : List Token → NGramTable → NGramTable
  | [], table => table
  | t :: rest, table =>
      if n ≤ (t :: rest).length then
        buildAux n rest
          (bumpWindow table ((t :: rest).take (n - 1)) ((t :: rest).getD (n - 1) ""))
      else table

/-- Modelled from the spec (§4.1 ModelBuilder, missing source module
`TEXT_PREDICTION.text_prediction`): `build(tokens, n)` fails with
`InsufficientDataError` when the corpus is shorter than `n`, and otherwise
returns the maximum-likelihood count table built by the sliding window. -/
def build (tokens : List Token) (n : ℕ) : Except SBTError NGramTable :=
  if tokens.length < n then .error .insufficientData
  else .ok (buildAux n tokens [])

/-- Sum of the continuation counts of one context entry. -/
def freqSum (fs : Freqs) : ℕ := (fs.map (fun p => p.2)).sum

/-- Total continuation count of a model, summed over all contexts and all
continuation tokens. -/
def totalCount (t : NGramTable) : ℕ := (t.map (fun e => freqSum e.2)).sum

/-- Number of width-`n` windows a token list admits under stride 1. -/
def winCount (n : ℕ) (l : List Token) : ℕ :=
  if n ≤ l.length then l.length + 1 - n else 0

lemma bumpCont_freqSum (fs : Freqs) (tok : Token) :
    freqSum (bumpCont fs tok) = freqSum fs + 1 := by
  induction fs with
  | nil => simp [bumpCont, freqSum]
  | cons p rest ih =>
      obtain ⟨t, c⟩ := p
      by_cases h : t = tok
      · simp [bumpCont, h, freqSum]
        omega
      · simp [bumpCont, h, freqSum] at ih ⊢
        omega

lemma bumpWindow_totalCount (t : NGramTable) (ctx : List Token) (tok : Token) :
    totalCount (bumpWindow t ctx tok) = totalCount t + 1 := by
  induction t with
  | nil => simp [bumpWindow, totalCount, freqSum]
  | cons e rest ih =>
      obtain ⟨k, fs⟩ := e
      by_cases h : k = ctx
      · simp [bumpWindow, h, totalCount, bumpCont_freqSum]
        omega
      · simp [bumpWindow, h, totalCount] at ih ⊢
        omega

lemma buildAux_totalCount (n : ℕ) (hn : 1 ≤ n) :
    ∀ (toks : List Token) (table : NGramTable),
      totalCount (buildAux n toks table) = totalCount table + winCount n toks := by
  intro toks
  induction toks with
  | nil =>
      intro table
      have h0 : ¬ n ≤ ([] : List Token).length := by simp; omega
      simp [buildAux, winCount, h0]
      omega
  | cons t rest ih =>
      intro table
      by_cases h : n ≤ (t :: rest).length
      · have hw : winCount n (t :: rest) = winCount n rest + 1 := by
          simp only [winCount, List.length_cons] at h ⊢
          split_ifs <;> omega
        simp only [buildAux, if_pos h]
        rw [ih, bumpWindow_totalCount, hw]
        omega
      · have hw : winCount n (t :: rest) = 0 := by
          simp only [winCount, if_neg h]
        simp only [buildAux, if_neg h, hw, Nat.add_zero]

/-- C1: for every token sequence of length ≥ n and order n ∈ {2,3},
`ModelBuilder.build` succeeds and the model's total continuation count,
summed over all contexts and continuation tokens, equals
`len(tokens) - n + 1`. -/
theorem build_total_count (tokens : List Token) (n : ℕ)
    (h2 : 2 ≤ n) (h3 : n ≤ 3) (hlen : n ≤ tokens.length) :
    ∃ t, build tokens n = .ok t ∧ totalCount t = tokens.length - n + 1 := by
  refine ⟨buildAux n tokens [], ?_, ?_⟩
  · simp [build, not_lt.mpr hlen]
  · have h1 : 1 ≤ n := by omega
    rw [buildAux_totalCount n h1 tokens []]
    simp [totalCount, winCount, hlen]
    omega

/-- C1 witness: the corpus ["a","b","a"] at order 2 yields total count 2. -/
theorem build_total_count_w :
    ∃ t, build ["a", "b", "a"] 2 = .ok t ∧ totalCount t = 2 := by
  have h := build_total_count ["a", "b", "a"] 2 (by decide) (by decide) (by decide)
  simpa using h

/-- C8: for every order n ∈ {2,3} and every token sequence strictly shorter
than n, `ModelBuilder.build` fails with `InsufficientDataError`. -/
theorem build_insufficient_data (tokens : List Token) (n : ℕ)
    (h2 : 2 ≤ n) (h3 : n ≤ 3) (hlen : tokens.length < n) :
    build tokens n = .error .insufficientData := by
  simp [build, hlen]

/-- C8 witness: the one-token corpus ["a"] at order 2 is rejected. -/
theorem build_insufficient_data_w :
    build ["a"] 2 = .error .insufficientData :=
  build_insufficient_data ["a"] 2 (by decide) (by decide) (by decide)

/-- Modelled from the spec (§4.2 Predictor): the last `k` tokens of a list,
used to form the lookup context from a possibly longer token sequence. -/
def lastN (k : ℕ) (l : List Token) : List Token := l.drop (l.length - k)

/-- Modelled from the spec (§3 Data model): context lookup in the n-gram
table; a context entry exists iff it was observed during training. -/
def lookupCtx : NGramTable → List Token → Option Freqs
  | [], _ => none
  | (k, fs) :: rest, ctx => if k = ctx then some fs else lookupCtx rest ctx

/-- Modelled from the spec (§4.2 Predictor, sampling step 3): inverse-CDF
selection.  Given a draw threshold `t` (the uniform value times the weight
total) walk the weights in insertion order and return the index of the first
weight whose cumulative sum exceeds `t`. -/
def drawIdx (t : ℚ) : List ℚ → ℕ
  | [] => 0
  | w :: ws => if t < w then 0 else drawIdx (t - w) ws + 1

/-- Modelled from the spec (§4.2 Predictor, sampling steps 1-4): draw one
continuation token from the insertion-ordered counts `conts` using the
uniform value `u ∈ [0,1)` and the temperature weight map `wf` applied to each
count.  Renormalization is implicit: the draw threshold is `u` times the
weight total. -/
def drawTok (u : ℚ) (wf : ℕ → ℚ) (conts : Freqs) : Token :=
  let ws := conts.map (fun p => wf p.2)
  (conts.getD (drawIdx (u * ws.sum) ws) ("", 0)).1

/-- Modelled from the spec (§4.2 Predictor, missing source module
`TEXT_PREDICTION.text_prediction`): `predict(model, prefix tokens,
temperature)` with the random source made explicit as the uniform value `u`.
Non-positive temperature fails with `InvalidParameterError`; an empty token
sequence fails with `UnderspecifiedContextError`; a missing context fails
with `UnknownContextError`; otherwise one token is drawn.  The spec's weight
`w_i = p_i^(1/T)` is a real-number power, so the draw is parametrized by the
weight map `wf` applied to the raw counts; renormalization makes count powers
and probability powers give the same distribution. -/
def predictW (n : ℕ) (model : NGramTable) (wf : ℕ → ℚ)
    (toks : List Token) (T u : ℚ) : Except SBTError Token :=
  if T ≤ 0 then .error .invalidParameter
  else if toks = [] then .error .underspecifiedContext
  else
    match lookupCtx model (lastN (n - 1) toks) with
    | none => .error .unknownContext
    | some conts => .ok (drawTok u wf conts)

/-- Modelled from the spec (§4.2 Predictor, sampling step 2): the weight of a
count `c` at temperature `T = 1/m` is `p^(1/T) = p^m` up to the common
normalizing factor, hence `c^m` on raw counts.  Integer inverse temperatures
keep the weights rational and cover the claims' low-temperature regime
exactly (`T = 0.01` is `m = 100`). -/
def powWeight (m : ℕ) (c : ℕ) : ℚ := (c : ℚ) ^ m

/-- Modelled from the spec (§4.2 Predictor): `predict` at temperature
`T = 1/m` with the exact rational weights `c^m`. -/
def predictInv (n : ℕ) (model : NGramTable) (m : ℕ)
    (toks : List Token) (u : ℚ) : Except SBTError Token :=
  predictW n model (powWeight m) toks (1 / (m : ℚ)) u

/-- Modelled from the spec (§4.3 SequenceGenerator): the generation loop.
`fuel` is the number of tokens still to append, `appended` the number already
appended; at each step the trailing `n-1` tokens of the in-progress sequence
form the lookup context.  A lookup miss on the very first step fails with
`UnknownContextError`; a miss after at least one appended token terminates
early with the partial sequence.  The Predictor's draw is inlined (the
temperature was validated by `generate` before the loop starts). -/
def generateGo (n : ℕ) (model : NGramTable) (wf : ℕ → ℚ) (rand : ℕ → ℚ) :
    ℕ → ℕ → List Token → Except SBTError (List Token)
  | 0, _, cur => .ok cur
  | fuel + 1, appended, cur =>
      match lookupCtx model (lastN (n - 1) cur) with
      | none => if appended = 0 then .error .unknownContext else .ok cur
      | some conts =>
          generateGo n model wf rand fuel (appended + 1)
            (cur ++ [drawTok (rand appended) wf conts])

/-- Modelled from the spec (§4.3 SequenceGenerator, missing source module
`TEXT_PREDICTION.text_prediction`): `generate(model, seed, length,
temperature)` with the random source made explicit as the stream `rand` of
uniform values.  A non-positive temperature supplied directly to the
SequenceGenerator fails with `InvalidParameterError` (§7); otherwise `length`
tokens are appended beyond the seed, subject to the early-termination policy
of `generateGo`. -/
def generate (n : ℕ) (model : NGramTable) (wf : ℕ → ℚ) (seed : List Token)
    (len : ℕ) (T : ℚ) (rand : ℕ → ℚ) : Except SBTError (List Token) :=
  if T ≤ 0 then .error .invalidParameter
  else generateGo n model wf rand len 0 seed

/-- Digit-string to number: `some` of the value when the character list is
nonempty and all digits, otherwise `none`. -/
def digitsVal (cs : List Char) : Option ℕ :=
  if !cs.isEmpty && cs.all Char.isDigit then
    some (cs.foldl (fun a c => 10 * a + (c.toNat - 48)) 0)
  else none

/-- Modelled from the spec (§7, §6): integer parsing of a textual numeric
argument or feedback token; only plain digit strings parse. -/
def parseNatTok (s : String) : Option ℕ := digitsVal s.toList

/-- Split a character list at the first dot, if any. -/
def breakDot : List Char → List Char × Option (List Char)
  | [] => ([], none)
  | c :: cs =>
      if c = '.' then ([], some cs)
      else
        let r := breakDot cs
        (c :: r.1, r.2)

/-- Modelled from the spec (§7): parsing of a textual temperature argument.
Plain decimal literals `digits` or `digits.digits` parse to the exact
rational; anything else (including scientific notation, signs and stray
dots) is malformed. -/
def parseDecimal (s : String) : Option ℚ :=
  match breakDot s.toList with
  | (intPart, none) => (digitsVal intPart).map (fun x => (x : ℚ))
  | (intPart, some fracPart) =>
      match digitsVal intPart, digitsVal fracPart with
      | some x, some y => some ((x : ℚ) + (y : ℚ) / (10 : ℚ) ^ fracPart.length)
      | _, _ => none

/-- Modelled from the spec (§7 Error handling design, missing source module
`TEXT_PREDICTION.text_prediction`): the generation entry point with textual
`length` and `temperature` arguments.  A malformed numeric argument fails
with `InvalidParameterError` rather than silently substituting a default. -/
def generateArgs (n : ℕ) (model : NGramTable) (wf : ℕ → ℚ) (seed : List Token)
    (lenStr tempStr : String) (rand : ℕ → ℚ) : Except SBTError (List Token) :=
  match parseNatTok lenStr, parseDecimal tempStr with
  | some len, some T => generate n model wf seed len T rand
  | _, _ => .error .invalidParameter

lemma generateGo_ok_of_appended (n : ℕ) (model : NGramTable) (wf : ℕ → ℚ)
    (rand : ℕ → ℚ) :
    ∀ (fuel appended : ℕ) (cur : List Token), 1 ≤ appended →
      ∃ s, generateGo n model wf rand fuel appended cur = .ok s ∧
        ∃ t, s = cur ++ t := by
  intro fuel
  induction fuel with
  | zero => exact fun appended cur _ => ⟨cur, rfl, [], by simp⟩
  | succ fuel ih =>
      intro appended cur hap
      cases hlk : lookupCtx model (lastN (n - 1) cur) with
      | none =>
          refine ⟨cur, ?_, [], by simp⟩
          have hne : appended ≠ 0 := by omega
          simp [generateGo, hlk, hne]
      | some conts =>
          obtain ⟨s, hs, t, ht⟩ :=
            ih (appended + 1) (cur ++ [drawTok (rand appended) wf conts]) (by omega)
          refine ⟨s, ?_, drawTok (rand appended) wf conts :: t, ?_⟩
          · simp [generateGo, hlk, hs]
          · simp [ht]

/-- C3 (amended): for every generation call with `length ≥ 1` and positive
temperature, a model with no entry for the seed's lookup context fails the
whole call with `UnknownContextError`, while a model containing the seed's
lookup context yields a successful (ok) result extending the seed by at
least one token — any later lookup miss only terminates the appending early.
The two outcomes are distinguishable by the Except constructor. -/
theorem generate_miss_policy (n : ℕ) (model : NGramTable) (wf : ℕ → ℚ)
    (seed : List Token) (len : ℕ) (T : ℚ) (rand : ℕ → ℚ)
    (hT : 0 < T) (hlen : 1 ≤ len) :
    (lookupCtx model (lastN (n - 1) seed) = none →
      generate n model wf seed len T rand = .error .unknownContext) ∧
    (∀ conts, lookupCtx model (lastN (n - 1) seed) = some conts →
      ∃ s, generate n model wf seed len T rand = .ok s ∧
        ∃ t, s = seed ++ t ∧ t ≠ []) := by
  obtain ⟨fuel, rfl⟩ : ∃ fuel, len = fuel + 1 := ⟨len - 1, by omega⟩
  have hTn : ¬ T ≤ 0 := not_le.mpr hT
  constructor
  · intro hlk
    simp [generate, hTn, generateGo, hlk]
  · intro conts hlk
    obtain ⟨s, hs, t, ht⟩ :=
      generateGo_ok_of_appended n model wf rand fuel 1
        (seed ++ [drawTok (rand 0) wf conts]) (le_refl 1)
    refine ⟨s, ?_, drawTok (rand 0) wf conts :: t, ?_, by simp⟩
    · simp [generate, hTn, generateGo, hlk, hs]
    · simp [ht]

/-- C3 witness: on the bigram model {("a") ↦ {"b": 2}}, generating one token
from the unknown seed ["z"] fails with `UnknownContextError`, while
generating from the known seed ["a"] succeeds with a strict extension. -/
theorem generate_miss_policy_w :
    (generate 2 [(["a"], [("b", 2)])] (powWeight 1) ["z"] 1 1 (fun _ => 0) =
      .error .unknownContext) ∧
    (∃ s, generate 2 [(["a"], [("b", 2)])] (powWeight 1) ["a"] 1 1 (fun _ => 0) =
      .ok s ∧ ∃ t, s = ["a"] ++ t ∧ t ≠ []) := by
  constructor
  · exact (generate_miss_policy 2 [(["a"], [("b", 2)])] (powWeight 1) ["z"] 1 1
      (fun _ => 0) (by decide) (by decide)).1 (by decide)
  · exact (generate_miss_policy 2 [(["a"], [("b", 2)])] (powWeight 1) ["a"] 1 1
      (fun _ => 0) (by decide) (by decide)).2 [("b", 2)] (by decide)

/-- C3 counterexample: the claim as stated quantifies over every call, but a
call with `length = 0` never performs the seed lookup: on a model with no
entry for the seed's context it returns the seed successfully instead of
failing with `UnknownContextError`. -/
theorem generate_seed_missing_cex :
    lookupCtx [(["a"], [("b", 2)])] (lastN 1 ["z"]) = none ∧
    generate 2 [(["a"], [("b", 2)])] (powWeight 1) ["z"] 0 1 (fun _ => 0) =
      .ok ["z"] := by
  constructor
  · decide
  · rfl

/-- C9 (amended): for every model/seed pair, every weight map and random
source, and every positive temperature, `generate` with `length = 0` returns
exactly the seed, unchanged. -/
theorem generate_len_zero (n : ℕ) (model : NGramTable) (wf : ℕ → ℚ)
    (seed : List Token) (T : ℚ) (rand : ℕ → ℚ) (hT : 0 < T) :
    generate n model wf seed 0 T rand = .ok seed := by
  simp [generate, not_le.mpr hT, generateGo]

/-- C9 witness: a concrete length-0 call at temperature 1 returns its seed. -/
theorem generate_len_zero_w :
    generate 2 [(["a"], [("b", 2)])] (powWeight 1) ["a"] 0 1 (fun _ => 0) =
      .ok ["a"] :=
  generate_len_zero 2 [(["a"], [("b", 2)])] (powWeight 1) ["a"] 1
    (fun _ => 0) (by decide)

/-- C9 counterexample: the claim as stated quantifies over every temperature,
but a non-positive temperature is rejected with `InvalidParameterError`
before the `length = 0` short-circuit, so the call does not return the seed. -/
theorem generate_len_zero_cex :
    generate 2 [(["a"], [("b", 2)])] (powWeight 1) ["a"] 0 0 (fun _ => 0) =
      .error .invalidParameter ∧
    generate 2 [(["a"], [("b", 2)])] (powWeight 1) ["a"] 0 0 (fun _ => 0) ≠
      .ok ["a"] := by
  refine ⟨rfl, ?_⟩
  intro h
  exact Except.noConfusion (rfl.trans h)

/-- C5: a non-positive temperature supplied directly to the Predictor or the
SequenceGenerator fails with `InvalidParameterError`, and a malformed numeric
length or temperature string supplied to the generation entry point fails
with `InvalidParameterError` rather than silently substituting a default. -/
theorem invalid_params_rejected :
    (∀ (n : ℕ) (model : NGramTable) (wf : ℕ → ℚ) (toks : List Token) (T u : ℚ),
      T ≤ 0 → predictW n model wf toks T u = .error .invalidParameter) ∧
    (∀ (n : ℕ) (model : NGramTable) (wf : ℕ → ℚ) (seed : List Token)
      (len : ℕ) (T : ℚ) (rand : ℕ → ℚ),
      T ≤ 0 → generate n model wf seed len T rand = .error .invalidParameter) ∧
    (∀ (n : ℕ) (model : NGramTable) (wf : ℕ → ℚ) (seed : List Token)
      (lenStr tempStr : String) (rand : ℕ → ℚ),
      parseNatTok lenStr = none ∨ parseDecimal tempStr = none →
      generateArgs n model wf seed lenStr tempStr rand =
        .error .invalidParameter) := by
  refine ⟨?_, ?_, ?_⟩
  · intro n model wf toks T u hT
    simp [predictW, hT]
  · intro n model wf seed len T rand hT
    simp [generate, hT]
  · intro n model wf seed lenStr tempStr rand h
    rcases h with h | h
    · simp [generateArgs, h]
    · cases hl : parseNatTok lenStr <;> simp [generateArgs, hl, h]

/-- C5 witness: temperature 0 is rejected by predict and generate, and the
malformed strings "abc" (length) and "0.8x" (temperature) are rejected by the
textual entry point. -/
theorem invalid_params_rejected_w :
    predictW 2 [(["a"], [("b", 2)])] (powWeight 1) ["a"] 0 0 =
      .error .invalidParameter ∧
    generate 2 [(["a"], [("b", 2)])] (powWeight 1) ["a"] 3 0 (fun _ => 0) =
      .error .invalidParameter ∧
    generateArgs 2 [(["a"], [("b", 2)])] (powWeight 1) ["a"] "abc" "0.8"
      (fun _ => 0) = .error .invalidParameter ∧
    generateArgs 2 [(["a"], [("b", 2)])] (powWeight 1) ["a"] "3" "0.8x"
      (fun _ => 0) = .error .invalidParameter := by
  refine ⟨?_, ?_, ?_, ?_⟩
  · exact invalid_params_rejected.1 2 [(["a"], [("b", 2)])] (powWeight 1) ["a"]
      0 0 (by decide)
  · exact invalid_params_rejected.2.1 2 [(["a"], [("b", 2)])] (powWeight 1)
      ["a"] 3 0 (fun _ => 0) (by decide)
  · exact invalid_params_rejected.2.2 2 [(["a"], [("b", 2)])] (powWeight 1)
      ["a"] "abc" "0.8" (fun _ => 0) (Or.inl (by decide))
  · exact invalid_params_rejected.2.2 2 [(["a"], [("b", 2)])] (powWeight 1)
      ["a"] "3" "0.8x" (fun _ => 0) (Or.inr (by decide))

/-- Modelled from the spec (§4.4 RatingController): the lower clamp bound of
the temperature interval, the spec's example value 0.1. -/
def Tmin : ℚ := 1 / 10

/-- Modelled from the spec (§4.4 RatingController): the upper clamp bound of
the temperature interval, the spec's example value 2.0. -/
def Tmax : ℚ := 2

/-- Modelled from the spec (§4.4 RatingController): silent clamping of the
temperature to the closed interval [Tmin, Tmax]. -/
def clampT (t : ℚ) : ℚ := max Tmin (min Tmax t)

lemma clampT_ge (t : ℚ) : Tmin ≤ clampT t := le_max_left _ _

lemma clampT_le (t : ℚ) : clampT t ≤ Tmax := by
  refine max_le ?_ (min_le_left _ _)
  norm_num [Tmin, Tmax]

/-- Modelled from the spec (§3 Data model): GenerationParams, a record
holding the temperature, which is kept inside the clamp interval after every
adjustment (the data-model invariant of the controller's bounded state). -/
structure GenerationParams where
  temperature : ℚ
  min_le : Tmin ≤ temperature
  le_max : temperature ≤ Tmax

/-- Build a GenerationParams record by clamping a requested temperature. -/
def clampParams (t : ℚ) : GenerationParams :=
  ⟨clampT t, clampT_ge t, clampT_le t⟩

/-- Modelled from the spec (§4.4 RatingController, missing source module
`RATING_MANAGER.rating_manager`): the requested (pre-clamp) temperature
delta of a feedback token. `"good"` adjusts downward by the fixed step `δ`,
`"bad"` upward by `δ`; a numeric rating r in 1..10 maps linearly via
`delta = (5.5 - r) * scale`; anything else is invalid (`none`). -/
def feedbackDelta (δ scale : ℚ) (input : String) : Option ℚ :=
  if input = "good" then some (-δ)
  else if input = "bad" then some δ
  else
    match parseNatTok input with
    | some r => if 1 ≤ r ∧ r ≤ 10 then some ((11 / 2 - (r : ℚ)) * scale) else none
    | none => none

/-- Recognized feedback tokens, as a decidable check: `"good"`, `"bad"`, or
a digit string whose value lies in 1..10. -/
def validFeedbackB (input : String) : Bool :=
  input == "good" || input == "bad" ||
    (match parseNatTok input with
     | some r => decide (1 ≤ r) && decide (r ≤ 10)
     | none => false)

/-- Modelled from the spec (§4.4 RatingController, missing source module
`RATING_MANAGER.rating_manager`): `apply_feedback` as a state transition.
Valid feedback clamps the adjusted temperature and commits it, returning the
post-adjustment snapshot; invalid feedback fails with `InvalidFeedbackError`
and leaves the current parameters unchanged.  The second component is what
`get_current_params()` returns after the call. -/
def applyFeedback (δ scale : ℚ) (input : String) (p : GenerationParams) :
    Except SBTError GenerationParams × GenerationParams :=
  match feedbackDelta δ scale input with
  | some d =>
      let q := clampParams (p.temperature + d)
      (.ok q, q)
  | none => (.error .invalidFeedback, p)

/-- One `"good"` feedback applied to the controller state. -/
def stepGood (δ scale : ℚ) (p : GenerationParams) : GenerationParams :=
  (applyFeedback δ scale "good" p).2

/-- One `"bad"` feedback applied to the controller state. -/
def stepBad (δ scale : ℚ) (p : GenerationParams) : GenerationParams :=
  (applyFeedback δ scale "bad" p).2

lemma stepGood_temperature (δ scale : ℚ) (p : GenerationParams) :
    (stepGood δ scale p).temperature = clampT (p.temperature + -δ) := rfl

lemma stepBad_temperature (δ scale : ℚ) (p : GenerationParams) :
    (stepBad δ scale p).temperature = clampT (p.temperature + δ) := by
  have h : feedbackDelta δ scale "bad" = some δ := by
    simp [feedbackDelta]
  simp [stepBad, applyFeedback, h, clampParams]

/-- C6: from every parameter state, each `"good"` adjustment never increases
the temperature and the result never drops below Tmin, each `"bad"`
adjustment never decreases it and the result never exceeds Tmax (so N
applications in a row are monotone step by step), and after every single
adjustment — of any feedback token — the temperature lies in [Tmin, Tmax]. -/
theorem rating_feedback_monotone (δ scale : ℚ) (p : GenerationParams) (N : ℕ)
    (hδ : 0 ≤ δ) :
    (∀ k, k < N →
      ((stepGood δ scale)^[k + 1] p).temperature ≤
        ((stepGood δ scale)^[k] p).temperature) ∧
    (∀ k, k < N →
      ((stepBad δ scale)^[k] p).temperature ≤
        ((stepBad δ scale)^[k + 1] p).temperature) ∧
    (∀ k, Tmin ≤ ((stepGood δ scale)^[k] p).temperature ∧
      ((stepBad δ scale)^[k] p).temperature ≤ Tmax) ∧
    (∀ (q : GenerationParams) (input : String),
      Tmin ≤ ((applyFeedback δ scale input q).2).temperature ∧
      ((applyFeedback δ scale input q).2).temperature ≤ Tmax) := by
  have hgood : ∀ q : GenerationParams,
      (stepGood δ scale q).temperature ≤ q.temperature := by
    intro q
    rw [stepGood_temperature]
    refine max_le q.min_le (le_trans (min_le_right _ _) ?_)
    have := q.le_max
    linarith
  have hbad : ∀ q : GenerationParams,
      q.temperature ≤ (stepBad δ scale q).temperature := by
    intro q
    rw [stepBad_temperature]
    refine le_max_of_le_right (le_min q.le_max ?_)
    linarith
  refine ⟨?_, ?_, ?_, ?_⟩
  · intro k _
    rw [Function.iterate_succ_apply']
    exact hgood _
  · intro k _
    rw [Function.iterate_succ_apply']
    exact hbad _
  · intro k
    exact ⟨((stepGood δ scale)^[k] p).min_le, ((stepBad δ scale)^[k] p).le_max⟩
  · intro q input
    exact ⟨((applyFeedback δ scale input q).2).min_le,
      ((applyFeedback δ scale input q).2).le_max⟩

/-- Modelled from the spec (§4.4): the controller's initial parameters, the
source default temperature 0.8. -/
def initParams : GenerationParams := clampParams (4 / 5)

/-- C6 witness: with step 0.1 from the default state, one `"good"` does not
increase the temperature. -/
theorem rating_feedback_monotone_w :
    ((stepGood (1 / 10) (1 / 10))^[0 + 1] initParams).temperature ≤
      ((stepGood (1 / 10) (1 / 10))^[0] initParams).temperature :=
  (rating_feedback_monotone (1 / 10) (1 / 10) initParams 1
    (by norm_num)).1 0 Nat.zero_lt_one

/-- C7: every feedback token that is neither `"good"`, `"bad"`, nor a digit
string with value in 1..10 fails with `InvalidFeedbackError` and leaves the
current generation parameters exactly unchanged. -/
theorem invalid_feedback_rejected (δ scale : ℚ) (input : String)
    (p : GenerationParams) (h : validFeedbackB input = false) :
    applyFeedback δ scale input p = (.error .invalidFeedback, p) := by
  have hd : feedbackDelta δ scale input = none := by
    simp only [validFeedbackB, Bool.or_eq_false_iff, beq_eq_false_iff_ne] at h
    obtain ⟨⟨hg, hb⟩, hr⟩ := h
    simp only [feedbackDelta, if_neg hg, if_neg hb]
    cases hp : parseNatTok input with
    | none => rfl
    | some r =>
        rw [hp] at hr
        have hnot : ¬ (1 ≤ r ∧ r ≤ 10) := by
          intro hand
          simp [hand.1, hand.2] at hr
        simp [hnot]
  simp [applyFeedback, hd]

/-- C7 witness: the invalid feedback values "ugly", "11" and "0" are each
rejected with `InvalidFeedbackError` and leave the parameters unchanged. -/
theorem invalid_feedback_rejected_w :
    applyFeedback (1 / 10) (1 / 10) "ugly" initParams =
      (.error .invalidFeedback, initParams) ∧
    applyFeedback (1 / 10) (1 / 10) "11" initParams =
      (.error .invalidFeedback, initParams) ∧
    applyFeedback (1 / 10) (1 / 10) "0" initParams =
      (.error .invalidFeedback, initParams) :=
  ⟨invalid_feedback_rejected (1 / 10) (1 / 10) "ugly" initParams (by decide),
   invalid_feedback_rejected (1 / 10) (1 / 10) "11" initParams (by decide),
   invalid_feedback_rejected (1 / 10) (1 / 10) "0" initParams (by decide)⟩

/-- Embedded from `src/sbt_main.py` line 289: the temperature argument that
`do_predict_next_word` passes to `predict_next_word` is the literal constant
0.8, written here as the exact rational 4/5.  It does not read the rating
manager's parameters. -/
def consolePredictTemperature : ℚ := 4 / 5

/-- Embedded from `src/sbt_main.py` lines 310-325 (`do_generate_sequence`):
the temperature value passed to `generate_sequence`, as a function of the
whitespace-split argument words only — the rating manager's parameters are
not consulted.  With at most one word, or with exactly two words (where
`parts[-3]` raises IndexError and the handler falls back to the defaults),
the default 0.8 is used; otherwise the last word is parsed as the
temperature unless it equals the resolved model type, any parse failure
falling back to 0.8.  Python float literals are modelled for plain decimal
strings; expectedly-rare forms (signs, exponents) are treated as parse
failures, which are not relied on by any theorem below. -/
def consoleGenTemp (parts : List String) : ℚ :=
  if parts.length ≤ 1 then 4 / 5
  else if parts.length = 2 then 4 / 5
  else
    let p2 := parts.getD (parts.length - 2) ""
    let p1 := parts.getD (parts.length - 1) ""
    let modelType := if p2 = "bigram" ∨ p2 = "trigram" then p2 else "bigram"
    if p1 = modelType then 4 / 5 else (parseDecimal p1).getD (4 / 5)

/-- C4 (code bug): the console's prediction temperature is the constant 0.8
(line 289) and its generation temperature is a function of the command words
alone, with default 0.8; neither consults the rating manager.  After a
single `"bad"` feedback (step 0.1) the controller's current temperature is
0.9, yet the temperature the console consumes stays 0.8 — the adjusted
parameter is never the one consumed, contradicting the claim. -/
theorem console_temperature_not_from_rating :
    consolePredictTemperature = 4 / 5 ∧
    consoleGenTemp [] = 4 / 5 ∧
    consoleGenTemp ["hello"] = 4 / 5 ∧
    consoleGenTemp ["hello", "world"] = 4 / 5 ∧
    (stepBad (1 / 10) (1 / 10) initParams).temperature = 9 / 10 ∧
    consolePredictTemperature ≠
      (stepBad (1 / 10) (1 / 10) initParams).temperature := by
  refine ⟨rfl, rfl, rfl, rfl, ?_, ?_⟩
  · rw [stepBad_temperature]
    norm_num [initParams, clampParams, clampT, Tmin, Tmax]
  · rw [stepBad_temperature]
    norm_num [consolePredictTemperature, initParams, clampParams, clampT,
      Tmin, Tmax]

/-- Embedded from `src/sbt_main.py` line 311 (`do_generate_sequence`):
`seed_text = ' '.join(parts[:-3]) if len(parts) > 3 else
' '.join(parts[:-2]) if len(parts) > 2 else arg`, modelled at the level of
the whitespace-split words: the seed passed to the sequence generator keeps
all words only when there are at most 2 of them. -/
def consoleSeedWords (parts : List String) : List String :=
  if parts.length > 3 then parts.take (parts.length - 3)
  else if parts.length > 2 then parts.take (parts.length - 2)
  else parts

/-- C10: the seed actually passed to the sequence generator is the full
input only when the input has at most 2 words; with exactly 3 words the last
2 words are stripped, and with more than 3 words the last 3 words are
stripped (reinterpreted as the optional length/model_type/temperature
arguments). -/
theorem console_seed_stripping (parts : List String) :
    (parts.length ≤ 2 → consoleSeedWords parts = parts) ∧
    (parts.length = 3 → consoleSeedWords parts = parts.take 1) ∧
    (3 < parts.length →
      consoleSeedWords parts = parts.take (parts.length - 3)) := by
  refine ⟨?_, ?_, ?_⟩
  · intro h
    have h3 : ¬ parts.length > 3 := by omega
    have h2 : ¬ parts.length > 2 := by omega
    simp [consoleSeedWords, h3, h2]
  · intro h
    have h3 : ¬ parts.length > 3 := by omega
    have h2 : parts.length > 2 := by omega
    simp [consoleSeedWords, h3, h2, h]
  · intro h
    simp [consoleSeedWords, h]

/-- C10 witness: a four-word command keeps only the first word as seed, a
three-word command keeps only the first word, and a two-word command is kept
whole. -/
theorem console_seed_stripping_w :
    consoleSeedWords ["a", "b", "c", "d"] = ["a"] ∧
    consoleSeedWords ["a", "b", "c"] = ["a"] ∧
    consoleSeedWords ["a", "b"] = ["a", "b"] := by
  refine ⟨?_, ?_, ?_⟩
  · exact (console_seed_stripping ["a", "b", "c", "d"]).2.2 (by decide)
  · exact (console_seed_stripping ["a", "b", "c"]).2.1 (by decide)
  · exact (console_seed_stripping ["a", "b"]).1 (by decide)

lemma drawIdx_eq (ws : List ℚ) :
    ∀ (i : ℕ) (t : ℚ), (∀ w ∈ ws, 0 ≤ w) →
      (ws.take i).sum ≤ t → t < (ws.take (i + 1)).sum → drawIdx t ws = i := by
  induction ws with
  | nil =>
      intro i t _ hlow hhigh
      simp only [List.take_nil, List.sum_nil] at hlow hhigh
      exact absurd hlow (not_le.mpr hhigh)
  | cons w ws ih =>
      intro i t hnn hlow hhigh
      cases i with
      | zero =>
          have hw : t < w := by simpa using hhigh
          simp [drawIdx, hw]
      | succ j =>
          have h0 : (0 : ℚ) ≤ (ws.take j).sum :=
            List.sum_nonneg fun x hx =>
              hnn x (List.mem_cons_of_mem w (List.take_subset j ws hx))
          have hlow' : w + (ws.take j).sum ≤ t := by
            simpa using hlow
          have hhigh' : t < w + (ws.take (j + 1)).sum := by
            simpa using hhigh
          have hnw : ¬ t < w := by linarith
          simp only [drawIdx, if_neg hnw, Nat.add_right_cancel_iff]
          exact ih j (t - w)
            (fun x hx => hnn x (List.mem_cons_of_mem w hx))
            (by linarith) (by linarith)

lemma eventually_pow_dominates (K ε a b : ℚ)
    (hK : 0 < K) (hε : 0 < ε) (ha : 0 ≤ a) (hab : a < b) :
    ∃ m₀, ∀ m, m₀ ≤ m → K * a ^ m < ε * b ^ m := by
  have hb : 0 < b := lt_of_le_of_lt ha hab
  have hr1 : a / b < 1 := (div_lt_one hb).mpr hab
  obtain ⟨m₀, hm₀⟩ := exists_pow_lt_of_lt_one (div_pos hε hK) hr1
  have hbase : K * a ^ m₀ < ε * b ^ m₀ := by
    have hbm : 0 < b ^ m₀ := pow_pos hb m₀
    have h1 : a ^ m₀ / b ^ m₀ < ε / K := by
      rw [← div_pow]
      exact hm₀
    have h2 := (div_lt_div_iff hbm hK).mp h1
    linarith
  refine ⟨m₀, fun m hm => ?_⟩
  induction m, hm using Nat.le_induction with
  | base => exact hbase
  | succ m _ ihm =>
      rcases eq_or_lt_of_le ha with ha0 | ha0
      · rw [← ha0, zero_pow (Nat.succ_ne_zero m), mul_zero]
        positivity
      · calc K * a ^ (m + 1) = a * (K * a ^ m) := by ring
          _ < a * (ε * b ^ m) := by
              exact mul_lt_mul_of_pos_left ihm ha0
          _ ≤ b * (ε * b ^ m) := by
              have hp : 0 ≤ ε * b ^ m := by positivity
              exact mul_le_mul_of_nonneg_right (le_of_lt hab) hp
          _ = ε * b ^ (m + 1) := by ring

/-- C2 (amended): for every model, every token sequence whose lookup context
is present with at least one observation per continuation and a unique
highest-count continuation, and every fixed uniform draw value u strictly
between 0 and 1, there is a threshold inverse temperature m₀ such that at
every temperature T = 1/m at least that cold (m ≥ m₀), `predict` returns the
unique highest-count continuation.  This is the precise form of the spec's
"as T tends to 0 from above the draw becomes the argmax": at any fixed
positive temperature the non-modal continuations keep a nonzero share of
the renormalized weight, so determinism holds only in the limit. -/
theorem predict_low_temp_argmax (n : ℕ) (model : NGramTable)
    (toks : List Token) (u : ℚ) (conts : Freqs) (i : ℕ)
    (htoks : toks ≠ [])
    (hlk : lookupCtx model (lastN (n - 1) toks) = some conts)
    (hu0 : 0 < u) (hu1 : u < 1)
    (hi : i < conts.length)
    (hpos : ∀ p ∈ conts, 1 ≤ p.2)
    (hmode : ∀ (j : ℕ) (hj : j < conts.length), j ≠ i →
      (conts.get ⟨j, hj⟩).2 < (conts.get ⟨i, hi⟩).2) :
    ∃ m₀, ∀ m, m₀ ≤ m →
      predictInv n model m toks u = .ok (conts.get ⟨i, hi⟩).1 := by
  set M : ℕ := (conts.get ⟨i, hi⟩).2 with hMdef
  have hM1 : 1 ≤ M := hMdef ▸ hpos _ (List.get_mem conts i hi)
  clear_value M
  set K : ℚ := ((conts.length : ℕ) : ℚ) with hKdef
  have hK : 0 < K := by
    rw [hKdef]
    have h0 : (0 : ℕ) < conts.length := by omega
    exact_mod_cast h0
  clear_value K
  set ε : ℚ := min u (1 - u) with hεdef
  have hε : 0 < ε := by
    rw [hεdef]
    exact lt_min hu0 (by linarith)
  have hεu : ε ≤ u := by
    rw [hεdef]
    exact min_le_left _ _
  have hεu1 : ε ≤ 1 - u := by
    rw [hεdef]
    exact min_le_right _ _
  clear_value ε
  set a : ℚ := ((M - 1 : ℕ) : ℚ) with hadef
  have ha0 : 0 ≤ a := by
    rw [hadef]
    positivity
  have hab : a < ((M : ℕ) : ℚ) := by
    rw [hadef]
    exact_mod_cast Nat.sub_lt (by omega) Nat.one_pos
  clear_value a
  obtain ⟨d₀, hdom⟩ :=
    eventually_pow_dominates K ε a ((M : ℕ) : ℚ) hK hε ha0 hab
  refine ⟨max 1 d₀, fun m hm => ?_⟩
  have hm1 : 1 ≤ m := le_trans (le_max_left _ _) hm
  have hdm := hdom m (le_trans (le_max_right _ _) hm)
  set ws : List ℚ := conts.map (fun p => powWeight m p.2) with hwsdef
  have hwsl : ws.length = conts.length := by
    rw [hwsdef]
    exact List.length_map _ _
  have hnn : ∀ w ∈ ws, 0 ≤ w := by
    intro w hw
    rw [hwsdef] at hw
    obtain ⟨p, _, rfl⟩ := List.mem_map.mp hw
    simp only [powWeight]
    positivity
  have hbound : ∀ l : List (Token × ℕ), (∀ p ∈ l, p.2 < M) →
      (l.map (fun p => powWeight m p.2)).sum ≤ ((l.length : ℕ) : ℚ) * a ^ m := by
    intro l hl
    have h1 : ∀ x ∈ l.map (fun p => powWeight m p.2), x ≤ a ^ m := by
      intro x hx
      obtain ⟨p, hp, rfl⟩ := List.mem_map.mp hx
      have hple : p.2 ≤ M - 1 := by have := hl p hp; omega
      have hc : (p.2 : ℚ) ≤ a := by
        rw [hadef]
        exact_mod_cast hple
      simp only [powWeight]
      exact pow_le_pow_left₀ (Nat.cast_nonneg _) hc m
    have h2 := List.sum_le_card_nsmul _ _ h1
    rw [List.length_map] at h2
    simpa [nsmul_eq_mul] using h2
  have hlt_take : ∀ p ∈ conts.take i, p.2 < M := by
    intro p hp
    obtain ⟨j, hjl, hje⟩ := List.getElem_of_mem hp
    have hji : j < i := by
      have := hjl
      simp [List.length_take] at this
      omega
    have hj2 : j < conts.length := by omega
    rw [List.getElem_take] at hje
    rw [← hje]
    exact hmode j hj2 (by omega)
  have hlt_drop : ∀ p ∈ conts.drop (i + 1), p.2 < M := by
    intro p hp
    obtain ⟨j, hjl, hje⟩ := List.getElem_of_mem hp
    have hj2 : i + 1 + j < conts.length := by
      have := hjl
      simp [List.length_drop] at this
      omega
    rw [List.getElem_drop] at hje
    rw [← hje]
    exact hmode (i + 1 + j) hj2 (by omega)
  set A : ℚ := ((conts.take i).map (fun p => powWeight m p.2)).sum with hAdef
  have hA0 : 0 ≤ A := by
    rw [hAdef]
    refine List.sum_nonneg ?_
    intro x hx
    obtain ⟨p, _, rfl⟩ := List.mem_map.mp hx
    simp only [powWeight]
    positivity
  have hAb : A ≤ K * a ^ m := by
    rw [hAdef]
    refine le_trans (hbound _ hlt_take) ?_
    have hl : (((conts.take i).length : ℕ) : ℚ) ≤ K := by
      rw [hKdef]
      have hn : (conts.take i).length ≤ conts.length := by
        simp [List.length_take]
      exact_mod_cast hn
    exact mul_le_mul_of_nonneg_right hl (pow_nonneg ha0 m)
  clear_value A
  set C : ℚ := ((conts.drop (i + 1)).map (fun p => powWeight m p.2)).sum
    with hCdef
  have hC0 : 0 ≤ C := by
    rw [hCdef]
    refine List.sum_nonneg ?_
    intro x hx
    obtain ⟨p, _, rfl⟩ := List.mem_map.mp hx
    simp only [powWeight]
    positivity
  have hCb : C ≤ K * a ^ m := by
    rw [hCdef]
    refine le_trans (hbound _ hlt_drop) ?_
    have hl : (((conts.drop (i + 1)).length : ℕ) : ℚ) ≤ K := by
      rw [hKdef]
      have hn : (conts.drop (i + 1)).length ≤ conts.length := by
        simp [List.length_drop]
      exact_mod_cast hn
    exact mul_le_mul_of_nonneg_right hl (pow_nonneg ha0 m)
  clear_value C
  have hMq : (0 : ℚ) < ((M : ℕ) : ℚ) := by exact_mod_cast hM1
  have hMm : (0 : ℚ) < ((M : ℕ) : ℚ) ^ m := pow_pos hMq m
  -- the decomposition of the weight sums around the modal index
  have htake_i : (ws.take i).sum = A := by
    rw [hwsdef, ← List.map_take, hAdef]
  have hdrop_si : (ws.drop (i + 1)).sum = C := by
    rw [hwsdef, ← List.map_drop, hCdef]
  have hwsi : i < ws.length := by omega
  have hg : ws[i]? = some (powWeight m (conts.get ⟨i, hi⟩).2) := by
    rw [hwsdef, List.getElem?_map, List.getElem?_eq_getElem hi]
    rfl
  have htake_si : (ws.take (i + 1)).sum = A + ((M : ℕ) : ℚ) ^ m := by
    rw [List.take_succ, hg, List.sum_append, htake_i]
    simp [powWeight]
    rw [hMdef, List.get_eq_getElem]
  have hwssum : ws.sum = A + ((M : ℕ) : ℚ) ^ m + C := by
    rw [← List.sum_take_add_sum_drop ws (i + 1), htake_si, hdrop_si]
  set t : ℚ := u * ws.sum with htdef
  have hlow : (ws.take i).sum ≤ t := by
    rw [htake_i, htdef]
    have h1 : ε * ((M : ℕ) : ℚ) ^ m ≤ u * ((M : ℕ) : ℚ) ^ m :=
      mul_le_mul_of_nonneg_right hεu (le_of_lt hMm)
    have h2 : u * ((M : ℕ) : ℚ) ^ m ≤ u * ws.sum := by
      refine mul_le_mul_of_nonneg_left ?_ (le_of_lt hu0)
      rw [hwssum]
      linarith
    linarith
  have hhigh : t < (ws.take (i + 1)).sum := by
    rw [htake_si, htdef, hwssum]
    have hexp : u * (A + ((M : ℕ) : ℚ) ^ m + C) =
        u * A + u * ((M : ℕ) : ℚ) ^ m + u * C := by ring
    rw [hexp]
    have h1 : u * A ≤ A := by
      have hx : 0 ≤ (1 - u) * A := mul_nonneg (by linarith) hA0
      have hre : (1 - u) * A = A - u * A := by ring
      linarith
    have h2 : u * C ≤ C := by
      have hx : 0 ≤ (1 - u) * C := mul_nonneg (by linarith) hC0
      have hre : (1 - u) * C = C - u * C := by ring
      linarith
    have h3 : ε * ((M : ℕ) : ℚ) ^ m ≤ (1 - u) * ((M : ℕ) : ℚ) ^ m :=
      mul_le_mul_of_nonneg_right hεu1 (le_of_lt hMm)
    have h4 : u * ((M : ℕ) : ℚ) ^ m + (1 - u) * ((M : ℕ) : ℚ) ^ m =
        ((M : ℕ) : ℚ) ^ m := by ring
    linarith
  have hidx : drawIdx t ws = i := drawIdx_eq ws i t hnn hlow hhigh
  have hT : ¬ ((1 : ℚ) / (m : ℚ) ≤ 0) := by
    have hmq : (0 : ℚ) < (m : ℚ) := by exact_mod_cast hm1
    push_neg
    positivity
  have hfinal : drawTok u (powWeight m) conts = (conts.get ⟨i, hi⟩).1 := by
    simp only [drawTok]
    rw [← hwsdef, ← htdef, hidx, List.getD_eq_getElem _ _ hi]
    rfl
  simp only [predictInv, predictW, if_neg hT, if_neg htoks, hlk]
  exact congrArg Except.ok hfinal


/-- C2 counterexample: at the fixed temperature T = 0.01 = 1/100 the draw is
not deterministic and can return a continuation other than the unique mode.
On the model {("x") ↦ {"a": 100, "b": 99}} (unique mode "a"), the draw value
u = 3/4 yields "b" while the draw value u = 1/10 yields "a". -/
theorem predict_low_temp_cex :
    predictInv 2 [(["x"], [("a", 100), ("b", 99)])] 100 ["x"] (3 / 4) =
      .ok "b" ∧
    predictInv 2 [(["x"], [("a", 100), ("b", 99)])] 100 ["x"] (1 / 10) =
      .ok "a" ∧
    ("b" : Token) ≠ "a" := by
  have hT : ¬ ((1 : ℚ) / ((100 : ℕ) : ℚ) ≤ 0) := by norm_num
  have hne : (["x"] : List Token) ≠ [] := by simp
  have hlk : lookupCtx [(["x"], [("a", 100), ("b", 99)])] (lastN (2 - 1) ["x"]) =
      some [("a", 100), ("b", 99)] := rfl
  have hws : ([(("a" : Token), 100), ("b", 99)].map
      (fun p => powWeight 100 p.2)) = [(100 : ℚ) ^ 100, (99 : ℚ) ^ 100] := by
    simp [powWeight]
  refine ⟨?_, ?_, by decide⟩
  · simp only [predictInv, predictW, if_neg hT, if_neg hne, hlk]
    congr 1
    simp only [drawTok, hws]
    have h1 : ¬ ((3 : ℚ) / 4 * ([(100 : ℚ) ^ 100, (99 : ℚ) ^ 100].sum) <
        (100 : ℚ) ^ 100) := by
      simp only [List.sum_cons, List.sum_nil]
      norm_num
    have h2 : (3 : ℚ) / 4 * ([(100 : ℚ) ^ 100, (99 : ℚ) ^ 100].sum) -
        (100 : ℚ) ^ 100 < (99 : ℚ) ^ 100 := by
      simp only [List.sum_cons, List.sum_nil]
      norm_num
    simp only [drawIdx, if_neg h1, if_pos h2]
    rfl
  · simp only [predictInv, predictW, if_neg hT, if_neg hne, hlk]
    congr 1
    simp only [drawTok, hws]
    have h1 : (1 : ℚ) / 10 * ([(100 : ℚ) ^ 100, (99 : ℚ) ^ 100].sum) <
        (100 : ℚ) ^ 100 := by
      simp only [List.sum_cons, List.sum_nil]
      norm_num
    simp only [drawIdx, if_pos h1]
    rfl

/-- C2 witness: on the model {("x") ↦ {"a": 2, "b": 1}} with unique mode
"a", from the draw value u = 1/2 there is a threshold inverse temperature
beyond which predict always returns "a". -/
theorem predict_low_temp_argmax_w :
    ∃ m₀, ∀ m, m₀ ≤ m →
      predictInv 2 [(["x"], [("a", 2), ("b", 1)])] m ["x"] (1 / 2) =
        .ok "a" :=
  predict_low_temp_argmax 2 [(["x"], [("a", 2), ("b", 1)])] ["x"] (1 / 2)
    [("a", 2), ("b", 1)] 0 (by simp) rfl (by norm_num) (by norm_num)
    (by decide) (by decide) (by decide)

end SBT
